import Mathlib

/-!
Verification of the lcmgen front end (src/lcmgen/lcmgen.c): a shallow
embedding of its rolling 64-bit signature hash and of its recursive-descent
parser for `struct` and `enum` declarations, together with theorems checking
the natural-language specification against the code.

Modelling conventions:
* C `int64_t` values are `Int`s kept in the signed two's-complement range
  `[-2^63, 2^63)`; every operation that can overflow is followed by `trunc64`,
  which is the wrap-around (two's complement) normalisation.  `int32_t`
  similarly uses `trunc32`, and C `char` (signed, 8 bit) uses `trunc8`.
* C strings are Lean `String`s; identifiers and tokens in LCM files are
  ASCII, so `String.length` is the byte count `strlen` returns and
  `Char.toNat` is the byte value fed to the hash.
* The token stream produced by the external tokenizer (tokenize.c, outside
  this repository) is modelled as a `List String`; an exhausted list is the
  EOF condition.
* Fatal diagnostics (`parse_error` / `semantic_error`, which print and call
  `_exit`) are modelled by an `Except` error carrying the kind and message of
  the diagnostic; no parser has any recovery path, exactly as in the C code.
-/

set_option maxRecDepth 100000

namespace Lcmgen

/-! ## Machine-integer helpers -/

/-- Wrap an integer to the signed two's-complement 64-bit range
`[-2^63, 2^63)`, the behaviour of `int64_t` arithmetic in the C code
(the spec states overflow wraps rather than erroring). -/
def trunc64 (x : Int) : Int := (x + 2^63) % 2^64 - 2^63

/-- Wrap an integer to the signed 32-bit range `[-2^31, 2^31)` (`int32_t`). -/
def trunc32 (x : Int) : Int := (x + 2^31) % 2^32 - 2^31

/-- Wrap an integer to the signed 8-bit range `[-128, 128)`: the conversion
applied to any value passed as the C `char` parameter of `hash_update`. -/
def trunc8 (x : Int) : Int := (x + 2^7) % 2^8 - 2^7

/-- The unsigned 64-bit representation (bit pattern) of an integer, as a
natural number below `2^64`. -/
def u64 (x : Int) : Nat := (x % 2^64).toNat

/-- Bitwise xor of two signed 64-bit values, computed on their unsigned bit
patterns, as the C `^` operator does on `int64_t`. -/
def xor64 (a b : Int) : Int := trunc64 (Int.ofNat (u64 a ^^^ u64 b))

/-! ## The rolling hash (lcmgen.c lines 77-95) -/

/-- Embedding of `hash_update` (lcmgen.c line 79):
`v = ((v<<8) ^ (v>>55)) + c`.  `v` is a signed `int64_t`, so `v<<8` wraps
(`trunc64`) and `v>>55` is an arithmetic (sign-propagating) shift, which for
an in-range signed value is exactly floor division by `2^55` — Lean's `/` on
`Int` with a positive divisor.  The parameter `c` has C type `char`, so the
argument is first truncated to signed 8 bits. -/
def hash_update (v c : Int) : Int :=
  trunc64 (xor64 (trunc64 (v * 2^8)) (v / 2^55) + trunc8 c)

/-- Embedding of `hash_string_update` (lcmgen.c line 87): feed `strlen(s)`
(as one `char`), then every byte of `s` in order — the C `for` loop over
the characters is a left fold. -/
def hash_string_update (v : Int) (s : String) : Int :=
  s.toList.foldl (fun w ch => hash_update w (Int.ofNat ch.toNat))
    (hash_update v (Int.ofNat s.length))

/-! ## AST model (lcmgen.h structures as used by lcmgen.c) -/

/-- Modelled from the spec: the dimension mode enumeration `LCM_CONST` /
`LCM_VAR`.  Its declaration lives in lcmgen.h, which is not part of the
sources given; the spec fixes the ordinals Constant = 0, Variable = 1, which
is also what a C `enum` without initialisers yields. -/
inductive dim_mode where
  | LCM_CONST
  | LCM_VAR
  deriving DecidableEq

/-- The integer value of a dimension mode fed to the hash. -/
def dim_mode.val : dim_mode → Int
  | .LCM_CONST => 0
  | .LCM_VAR => 1

/-- One array dimension (`lcm_dimension_t`): a mode and the size token text
(a numeric literal for `LCM_CONST`, a member name for `LCM_VAR`). -/
structure lcm_dimension where
  mode : dim_mode
  size : String
  deriving DecidableEq

/-- One struct member (`lcm_member_t`).  `type` is the `typename` field of
the member's `lcm_typename_t` (the qualified type name as written; the
derived `package`/`shortname` views are used only by the dump routines and
are not modelled). -/
structure lcm_member where
  type : String
  membername : String
  dimensions : List lcm_dimension
  deriving DecidableEq

/-- A struct declaration (`lcm_struct_t`): name, members in declaration
order, and the hash stored after the closing brace (0 until then, from
`calloc`).  The `lcmfile` field and the unused nested `enums`/`structs`
arrays are not modelled. -/
structure lcm_struct where
  structname : String
  members : List lcm_member
  hash : Int
  deriving DecidableEq

/-- One enum value (`lcm_enum_value_t`): name and assigned `int32_t`. -/
structure lcm_enum_value where
  valuename : String
  value : Int
  deriving DecidableEq

/-- An enum declaration (`lcm_enum_t`): qualified name, values in
declaration order, stored hash. -/
structure lcm_enum where
  enumname : String
  values : List lcm_enum_value
  hash : Int
  deriving DecidableEq

/-- The Schema Registry (`lcmgen_t`): the two append-only collections of
completed structs and enums.  The `gopt` CLI-options field is out of
scope. -/
structure lcmgen where
  structs : List lcm_struct
  enums : List lcm_enum
  deriving DecidableEq

/-! ## Type classification (lcmgen.c lines 33-75) -/

/-- The built-in primitive type names (lcmgen.c line 33). -/
def primitive_types : List String :=
  ["int8_t", "int16_t", "int32_t", "int64_t", "byte", "float", "double",
   "string", "boolean"]

/-- The types legal as array dimensions (lcmgen.c line 45): the four signed
integer widths. -/
def array_dimension_types : List String :=
  ["int8_t", "int16_t", "int32_t", "int64_t"]

/-- `string_in_array` (lcmgen.c line 52): membership in a string list. -/
def string_in_array (t : String) (ts : List String) : Bool :=
  ts.contains t

/-- `lcm_is_primitive_type` (lcmgen.c line 62). -/
def lcm_is_primitive_type (t : String) : Bool :=
  string_in_array t primitive_types

/-- `lcm_is_array_dimension_type` (lcmgen.c line 67). -/
def lcm_is_array_dimension_type (t : String) : Bool :=
  string_in_array t array_dimension_types

/-- The first character of a token, `t->token[0]` in C; an empty C string
reads the NUL terminator. -/
def firstChar (s : String) : Char := s.toList.headD (Char.ofNat 0)

/-- `lcm_is_legal_member_name` (lcmgen.c line 72): `isalpha(t[0]) || t[0]=='_'`.
`Char.isAlpha` matches C `isalpha` on ASCII data. -/
def lcm_is_legal_member_name (t : String) : Bool :=
  (firstChar t).isAlpha || firstChar t == '_'

/-! ## Entity hashes (lcmgen.c lines 168-212) -/

/-- Embedding of `lcm_struct_hash` (lcmgen.c line 168).  Seed `0x12345678`;
for each member in order: the member name (string update); the type name
(string update) only if primitive; the dimension count (one `char` update);
then for each dimension its mode and its size token.  The struct's own name
is never fed. -/
def lcm_struct_hash (lr : lcm_struct) : Int :=
  lr.members.foldl
    (fun v lm =>
      let v1 := hash_string_update v lm.membername
      let v2 := if lcm_is_primitive_type lm.type
                then hash_string_update v1 lm.type else v1
      let v3 := hash_update v2 (Int.ofNat lm.dimensions.length)
      lm.dimensions.foldl
        (fun w dim => hash_string_update (hash_update w dim.mode.val) dim.size)
        v3)
    0x12345678

/-- Embedding of `lcm_enum_hash` (lcmgen.c line 206): seed `0x87654321`,
string-update with the enum's qualified name only. -/
def lcm_enum_hash (le : lcm_enum) : Int :=
  hash_string_update 0x87654321 le.enumname

/-! ## strtol with base 0 (used at lcmgen.c lines 362 and 422) -/

/-- The numeric value of a hexadecimal digit character, if it is one. -/
def hexDigit (c : Char) : Option Nat :=
  if c.isDigit then some (c.toNat - 48)
  else if 'a' ≤ c && c ≤ 'f' then some (c.toNat - 97 + 10)
  else if 'A' ≤ c && c ≤ 'F' then some (c.toNat - 65 + 10)
  else none

/-- Accumulate digits of the given base, stopping at the first character
that is not a digit of that base, as `strtol` does. -/
def takeDigits (base : Nat) (acc : Int) : List Char → Int
  | [] => acc
  | c :: cs =>
    match hexDigit c with
    | some d => if d < base then takeDigits base (acc * base + d) cs else acc
    | none => acc

/-- Digit part of `strtol(s, NULL, 0)` after the optional sign: a `0x`/`0X`
prefix selects base 16, a leading `0` selects base 8, otherwise base 10. -/
def strtol0core : List Char → Int
  | '0' :: 'x' :: rest => takeDigits 16 0 rest
  | '0' :: 'X' :: rest => takeDigits 16 0 rest
  | '0' :: rest => takeDigits 8 0 rest
  | rest => takeDigits 10 0 rest

/-- The overflow clamp `strtol` applies: a value outside the range of
`long` is replaced by `LONG_MAX` or `LONG_MIN`.  `long` is 64-bit (LP64)
on the platforms lcm targets. -/
def clamp_long (x : Int) : Int := max (-(2^63)) (min (2^63 - 1) x)

/-- Model of C `strtol(s, NULL, 0)`: skip leading whitespace, read an
optional sign, then digits in the detected base, stopping at the first
invalid character; a value outside the `long` range is clamped to
`LONG_MAX`/`LONG_MIN`. -/
def strtol0 (s : String) : Int :=
  match s.toList.dropWhile Char.isWhitespace with
  | '-' :: rest => clamp_long (- strtol0core rest)
  | '+' :: rest => clamp_long (strtol0core rest)
  | rest => clamp_long (strtol0core rest)

/-! ## Diagnostics (lcmgen.c lines 216-270)

`semantic_error` and `parse_error` format a message and terminate the
process; they are modelled as the two error kinds below, carrying the
formatted message text. -/

/-- A fatal diagnostic: a parse error (rendered with a column caret) or a
semantic error (rendered without). -/
inductive diag where
  | parse_err : String → diag
  | semantic_err : String → diag
  deriving DecidableEq

/-- The token stream handed to the parser by the external tokenizer:
the remaining tokens in order; `[]` is end of input. -/
abbrev Toks := List String

/-- `parse_require` (lcmgen.c line 290): consume the next token and require
it to be exactly `tok`. -/
def parse_require (toks : Toks) (tok : String) : Except diag Toks :=
  match toks with
  | [] => .error (.parse_err ("expected token " ++ tok))
  | s :: rest =>
    if s = tok then .ok rest
    else .error (.parse_err ("expected token " ++ tok))

/-- `lcm_find_member` (lcmgen.c line 628): first member with the given
name, scanning in declaration order. -/
def lcm_find_member (lr : lcm_struct) (name : String) : Option lcm_member :=
  lr.members.find? (fun lm => lm.membername == name)

/-! ## Member parsing (lcmgen.c lines 309-411)

`parse_member` reads one type token, then a comma-separated list of member
names, each with an optional list of `[size]` dimension specifiers, ending
with `;`.  The C `while` loops become the recursive functions below.  Note
the order in the C code: each member is appended to `lr->members` *before*
its dimensions are parsed, so the search for a variable dimension name scans
the earlier members plus the member currently being declared. -/

/-- One dimension specifier, starting at the size token (the `[` has been
consumed): lcmgen.c lines 356-398.  `members` is the list scanned by the
variable-name search, i.e. `lr->members` at that moment. -/
def parse_one_dim (members : List lcm_member) (toks : Toks) :
    Except diag (lcm_dimension × Toks) :=
  match toks with
  | [] => .error (.parse_err "End of file reached, expected array size.")
  | tok :: rest =>
    if (firstChar tok).isDigit then
      -- constant size: `int sz = strtol(t->token, NULL, 0)` at lcmgen.c
      -- line 362 stores the long result into an int, wrapping it to 32
      -- bits before the `sz <= 0` check
      if trunc32 (strtol0 tok) ≤ 0 then
        .error (.semantic_err "Constant array size must be > 0")
      else
        match parse_require rest "]" with
        | .error e => .error e
        | .ok r => .ok (⟨.LCM_CONST, tok⟩, r)
    else
      if firstChar tok = ']' then
        .error (.semantic_err
          "Array sizes must be declared either as a constant or variable.")
      else if ¬ lcm_is_legal_member_name tok then
        .error (.semantic_err
          "Invalid array size variable name: must start with [a-zA-Z_].")
      else
        match members.find? (fun lm => lm.membername == tok) with
        | none =>
          .error (.semantic_err ("Unknown variable array index \x27" ++ tok ++
            "\x27. Index variables must be declared before the array."))
        | some thislm =>
          if thislm.dimensions.length ≠ 0 then
            .error (.semantic_err ("Array dimension \x27" ++ tok ++
              "\x27 must be not be an array type."))
          else if ¬ lcm_is_array_dimension_type thislm.type then
            .error (.semantic_err ("Array dimension \x27" ++ tok ++
              "\x27 must be an integer type."))
          else
            match parse_require rest "]" with
            | .error e => .error e
            | .ok r => .ok (⟨.LCM_VAR, tok⟩, r)

/-- On success `parse_require` has consumed exactly one token. -/
def parse_require_len : ∀ (toks : Toks) (tok : String) (r : Toks),
    parse_require toks tok = .ok r → r.length < toks.length := by
  intro toks tok r h
  cases toks with
  | nil => simp [parse_require] at h
  | cons s rest =>
    simp only [parse_require] at h
    split at h
    · cases h; simp
    · cases h

/-- On success `parse_one_dim` has consumed at least the size token. -/
def parse_one_dim_len : ∀ (members : List lcm_member) (toks : Toks) d (r : Toks),
    parse_one_dim members toks = .ok (d, r) → r.length < toks.length := by
  intro members toks d r h
  cases toks with
  | nil => simp [parse_one_dim] at h
  | cons tok rest =>
    simp only [parse_one_dim] at h
    split at h
    · split at h
      · cases h
      · cases hr : parse_require rest "]" with
        | error e => rw [hr] at h; cases h
        | ok r2 =>
          rw [hr] at h
          cases h
          have := parse_require_len rest "]" _ hr
          simp; omega
    · split at h
      · cases h
      · split at h
        · cases h
        · split at h
          · cases h
          · split at h
            · cases h
            · split at h
              · cases h
              · cases hr : parse_require rest "]" with
                | error e => rw [hr] at h; cases h
                | ok r2 =>
                  rw [hr] at h
                  cases h
                  have := parse_require_len rest "]" _ hr
                  simp; omega

/-- The `while (parse_try_consume(t, "["))` loop of lcmgen.c line 353:
repeatedly parse dimension specifiers and append them to the current
member `lm`.  `prev` is `lr->members` minus the current member; the C code
has already appended `lm` to `lr->members`, so the name search sees
`prev ++ [lm]` with `lm` holding the dimensions attached so far.  The
`fuel` argument only bounds the number of iterations so that the recursion
is structural; the `parse_dims` wrapper supplies enough fuel that the
bound is never hit, because every iteration consumes tokens. -/
def parse_dims_f : Nat → List lcm_member → lcm_member → Toks →
    Except diag (lcm_member × Toks)
  | 0, _, _, _ => .error (.parse_err "fuel exhausted")
  | fuel + 1, prev, lm, toks =>
    match toks with
    | [] => .error (.parse_err "End of file while looking for [.")
    | s :: rest =>
      if s = "[" then
        match parse_one_dim (prev ++ [lm]) rest with
        | .error e => .error e
        | .ok (dim, rest2) =>
          parse_dims_f fuel prev { lm with dimensions := lm.dimensions ++ [dim] } rest2
      else .ok (lm, s :: rest)

/-- The dimension loop with enough fuel for its token stream. -/
def parse_dims (prev : List lcm_member) (lm : lcm_member) (toks : Toks) :
    Except diag (lcm_member × Toks) :=
  parse_dims_f (toks.length + 1) prev lm toks

/-- A successful `parse_dims_f` never produces more tokens than given. -/
def parse_dims_f_len : ∀ (fuel : Nat) (prev : List lcm_member)
    (lm : lcm_member) (toks : Toks) lm2 (r : Toks),
    parse_dims_f fuel prev lm toks = .ok (lm2, r) → r.length ≤ toks.length := by
  intro fuel
  induction fuel with
  | zero => intro prev lm toks lm2 r h; simp [parse_dims_f] at h
  | succ fuel ih =>
    intro prev lm toks lm2 r h
    cases toks with
    | nil => simp [parse_dims_f] at h
    | cons s rest =>
      rw [parse_dims_f] at h
      split at h
      · split at h
        · cases h
        · rename_i dim rest2 hone
          have h1 := parse_one_dim_len _ rest dim rest2 hone
          have h2 := ih _ _ _ _ _ h
          simp
          omega
      · cases h
        simp

/-- `parse_dims` never produces more tokens than it was given. -/
def parse_dims_len : ∀ (prev : List lcm_member) (lm : lcm_member) (toks : Toks)
    lm2 (r : Toks), parse_dims prev lm toks = .ok (lm2, r) → r.length ≤ toks.length :=
  fun prev lm toks lm2 r h => parse_dims_f_len _ _ _ _ _ _ h

/-- One iteration of the member-name loop of `parse_member` (lcmgen.c lines
337-402): read a name, validate it (legality, then uniqueness), append the
new member — of the shared type `lt` — to the struct, then parse its
dimension specifiers. -/
def parse_one_member_item (lt : String) (lr : lcm_struct) (toks : Toks) :
    Except diag (lcm_struct × Toks) :=
  match toks with
  | [] => .error (.parse_err "End of file reached, expected name identifier.")
  | name :: rest =>
    if ¬ lcm_is_legal_member_name name then
      .error (.parse_err "Invalid member name: must start with [a-zA-Z_].")
    else if (lcm_find_member lr name).isSome then
      .error (.semantic_err ("Duplicate member name \x27" ++ name ++ "\x27."))
    else
      -- the new member is appended to lr->members before its dimensions
      -- are parsed (lcmgen.c line 350), hence the search list in parse_dims
      match parse_dims lr.members ⟨lt, name, []⟩ rest with
      | .error e => .error e
      | .ok (lm, rest2) => .ok ({ lr with members := lr.members ++ [lm] }, rest2)

/-- On success one member item consumes at least the name token. -/
def parse_one_member_item_len : ∀ (lt : String) (lr : lcm_struct) (toks : Toks)
    lr2 (r : Toks), parse_one_member_item lt lr toks = .ok (lr2, r) →
    r.length < toks.length := by
  intro lt lr toks lr2 r h
  cases toks with
  | nil => simp [parse_one_member_item] at h
  | cons name rest =>
    rw [parse_one_member_item] at h
    split at h
    · cases h
    · split at h
      · cases h
      · split at h
        · cases h
        · rename_i lm rest2 heq
          cases h
          have := parse_dims_len lr.members ⟨lt, name, []⟩ rest lm _ heq
          simp
          omega

/-- The `while (1)` member-name loop of `parse_member` (lcmgen.c line 334):
parse one member item, then continue if a comma follows (the
`parse_try_consume(t, ",")` at line 404, whose peek makes an exhausted
stream a fatal EOF diagnostic). -/
def parse_member_names_f (fuel : Nat) (lt : String) (lr : lcm_struct)
    (toks : Toks) : Except diag (lcm_struct × Toks) :=
  match fuel with
  | 0 => .error (.parse_err "fuel exhausted")
  | fuel + 1 =>
    match parse_one_member_item lt lr toks with
    | .error e => .error e
    | .ok (lr2, rest2) =>
      match rest2 with
      | [] => .error (.parse_err "End of file while looking for ,.")
      | s :: rest3 =>
        if s = "," then parse_member_names_f fuel lt lr2 rest3
        else .ok (lr2, s :: rest3)

/-- The member-name loop with enough fuel for its token stream. -/
def parse_member_names (lt : String) (lr : lcm_struct) (toks : Toks) :
    Except diag (lcm_struct × Toks) :=
  parse_member_names_f (toks.length + 1) lt lr toks

/-- On success the member-name loop consumes at least one token. -/
def parse_member_names_f_len : ∀ (fuel : Nat) (lt : String) (lr : lcm_struct)
    (toks : Toks) lr2 (r : Toks),
    parse_member_names_f fuel lt lr toks = .ok (lr2, r) →
    r.length < toks.length := by
  intro fuel
  induction fuel with
  | zero => intro lt lr toks lr2 r h; simp [parse_member_names_f] at h
  | succ fuel ih =>
    intro lt lr toks lr2 r h
    rw [parse_member_names_f] at h
    split at h
    · cases h
    · rename_i lr3 rest2 hitem
      have h1 := parse_one_member_item_len lt lr toks lr3 rest2 hitem
      split at h
      · cases h
      · split at h
        · have h2 := ih _ _ _ _ _ h
          rename_i s rest3 hs
          simp at h1
          omega
        · cases h
          exact h1

/-- On success the member-name loop consumes at least one token. -/
def parse_member_names_len : ∀ (lt : String) (lr : lcm_struct) (toks : Toks)
    lr2 (r : Toks), parse_member_names lt lr toks = .ok (lr2, r) →
    r.length < toks.length :=
  fun lt lr toks lr2 r h => parse_member_names_f_len _ _ _ _ _ _ h

/-- Embedding of `parse_member` (lcmgen.c line 309): reject inline nested
type declarations, read and validate the type name, then run the
member-name loop and require the closing `;`.  The three
`parse_try_consume` calls at lines 318-323 peek at the same token, so an
exhausted stream fails with the first peek's EOF diagnostic. -/
def parse_member (lr : lcm_struct) (toks : Toks) :
    Except diag (lcm_struct × Toks) :=
  match toks with
  | [] => .error (.parse_err "End of file while looking for struct.")
  | s :: rest =>
    if s = "struct" then .error (.parse_err "recursive structs not implemented.")
    else if s = "enum" then .error (.parse_err "recursive enums not implemented.")
    else if s = "union" then .error (.parse_err "recursive unions not implemented.")
    else if ¬ ((firstChar s).isAlpha || firstChar s == '_') then
      .error (.parse_err "invalid type name")
    else
      match parse_member_names s lr rest with
      | .error e => .error e
      | .ok (lr2, rest2) =>
        match parse_require rest2 ";" with
        | .error e => .error e
        | .ok rest3 => .ok (lr2, rest3)

/-- On success `parse_member` consumes at least the type token. -/
def parse_member_len : ∀ (lr : lcm_struct) (toks : Toks) lr2 (r : Toks),
    parse_member lr toks = .ok (lr2, r) → r.length < toks.length := by
  intro lr toks lr2 r h
  cases toks with
  | nil => simp [parse_member] at h
  | cons s rest =>
    rw [parse_member] at h
    split at h
    · cases h
    · split at h
      · cases h
      · split at h
        · cases h
        · split at h
          · cases h
          · split at h
            · cases h
            · rename_i lr3 rest2 hnames
              cases hr : parse_require rest2 ";" with
              | error e => simp only [hr] at h; cases h
              | ok rest3 =>
                simp only [hr] at h
                cases h
                have h1 := parse_member_names_len s lr rest _ _ hnames
                have h2 := parse_require_len _ _ _ hr
                simp
                omega

/-- The struct-body loop of `parse_struct` (lcmgen.c line 461):
`while (!parse_try_consume(t, "}")) parse_member(...)`. -/
def parse_struct_members_f (fuel : Nat) (lr : lcm_struct) (toks : Toks) :
    Except diag (lcm_struct × Toks) :=
  match fuel with
  | 0 => .error (.parse_err "fuel exhausted")
  | fuel + 1 =>
    match toks with
    | [] => .error (.parse_err "End of file while looking for \x7d.")
    | s :: rest =>
      if s = "\x7d" then .ok (lr, rest)
      else
        match parse_member lr (s :: rest) with
        | .error e => .error e
        | .ok (lr2, rest2) => parse_struct_members_f fuel lr2 rest2

/-- The struct-body loop with enough fuel for its token stream. -/
def parse_struct_members (lr : lcm_struct) (toks : Toks) :
    Except diag (lcm_struct × Toks) :=
  parse_struct_members_f (toks.length + 1) lr toks

/-- The struct-body loop never produces more tokens than it was given. -/
def parse_struct_members_f_len : ∀ (fuel : Nat) (lr : lcm_struct) (toks : Toks)
    lr2 (r : Toks), parse_struct_members_f fuel lr toks = .ok (lr2, r) →
    r.length ≤ toks.length := by
  intro fuel
  induction fuel with
  | zero => intro lr toks lr2 r h; simp [parse_struct_members_f] at h
  | succ fuel ih =>
    intro lr toks lr2 r h
    cases toks with
    | nil => simp [parse_struct_members_f] at h
    | cons s rest =>
      rw [parse_struct_members_f] at h
      split at h
      · cases h
        simp
      · split at h
        · cases h
        · rename_i lr3 rest2 hmem
          have h1 := parse_member_len lr (s :: rest) lr3 rest2 hmem
          have h2 := ih _ _ _ _ h
          simp at h1
          simp
          omega

/-- The struct-body loop never produces more tokens than it was given. -/
def parse_struct_members_len : ∀ (lr : lcm_struct) (toks : Toks) lr2 (r : Toks),
    parse_struct_members lr toks = .ok (lr2, r) → r.length ≤ toks.length :=
  fun lr toks lr2 r h => parse_struct_members_f_len _ _ _ _ _ h

/-- Embedding of `parse_struct` (lcmgen.c line 450), the `struct` keyword
already consumed: read the struct name, require `{`, parse members until
`}`, then compute and store the hash (line 464) — the only point at which
`lr->hash` leaves its `calloc` value 0. -/
def parse_struct (toks : Toks) : Except diag (lcm_struct × Toks) :=
  match toks with
  | [] => .error (.parse_err "End of file reached, expected struct name.")
  | name :: rest =>
    match parse_require rest "\x7b" with
    | .error e => .error e
    | .ok rest2 =>
      match parse_struct_members ⟨name, [], 0⟩ rest2 with
      | .error e => .error e
      | .ok (lr, rest3) => .ok ({ lr with hash := lcm_struct_hash lr }, rest3)

/-- On success `parse_struct` consumes at least the struct name. -/
def parse_struct_len : ∀ (toks : Toks) lr (r : Toks),
    parse_struct toks = .ok (lr, r) → r.length < toks.length := by
  intro toks lr r h
  cases toks with
  | nil => simp [parse_struct] at h
  | cons name rest =>
    rw [parse_struct] at h
    split at h
    · cases h
    · rename_i rest2 hreq
      split at h
      · cases h
      · rename_i lr2 rest3 hbody
        cases h
        have h1 := parse_require_len rest "\x7b" _ hreq
        have h2 := parse_struct_members_len ⟨name, [], 0⟩ rest2 lr2 _ hbody
        simp
        omega

/-! ## Enum parsing (lcmgen.c lines 413-491) -/

/-- The auto-assignment of an enum value with no explicit literal
(lcmgen.c lines 424-433): `int32_t max = 0` raised by every previously
parsed value, then `max + 1`. -/
def enum_next_value (le : lcm_enum) : Int :=
  le.values.foldl (fun m tmp => if tmp.value > m then tmp.value else m) 0 + 1

/-- The duplicate check and append of `parse_enum_value` (lcmgen.c lines
436-445): scan the prior values in order, rejecting first on an equal
number and then on an equal name; if no prior value matches either, append
the new value. -/
def enum_dup_check (le : lcm_enum) (name : String) (v : Int) (rest : Toks) :
    Except diag (lcm_enum × Toks) :=
  match le.values.find? (fun tmp => tmp.value == v || tmp.valuename == name) with
  | some tmp =>
    if tmp.value == v then
      .error (.semantic_err ("Enum values " ++ tmp.valuename ++ " and " ++
        name ++ " have the same value!"))
    else
      .error (.semantic_err ("Enum value " ++ tmp.valuename ++
        " declared twice!"))
  | none => .ok ({ le with values := le.values ++ [⟨name, v⟩] }, rest)

/-- Embedding of `parse_enum_value` (lcmgen.c line 413): read the value
name (any non-EOF token — no legality check is performed on it), then
either an explicit `= literal` (strtol base 0, truncated into the
`int32_t` value field) or the auto-assigned `enum_next_value`; finally the
duplicate check.  The `parse_try_consume(t, "=")` peek makes an exhausted
stream after the name a fatal EOF diagnostic. -/
def parse_enum_value (le : lcm_enum) (toks : Toks) :
    Except diag (lcm_enum × Toks) :=
  match toks with
  | [] => .error (.parse_err "End of file reached, expected enum name.")
  | name :: rest =>
    match rest with
    | [] => .error (.parse_err "End of file while looking for =.")
    | s :: rest2 =>
      if s = "=" then
        match rest2 with
        | [] => .error (.parse_err "End of file reached, expected enum value literal.")
        | lit :: rest3 => enum_dup_check le name (trunc32 (strtol0 lit)) rest3
      else
        enum_dup_check le name (trunc32 (enum_next_value le)) (s :: rest2)

/-- On success `enum_dup_check` returns its `rest` argument unchanged. -/
def enum_dup_check_rest : ∀ (le : lcm_enum) (name : String) (v : Int)
    (rest : Toks) le2 (r : Toks), enum_dup_check le name v rest = .ok (le2, r) →
    r = rest := by
  intro le name v rest le2 r h
  rw [enum_dup_check] at h
  split at h
  · split at h
    · cases h
    · cases h
  · cases h
    rfl

/-- On success `parse_enum_value` consumes at least the name token. -/
def parse_enum_value_len : ∀ (le : lcm_enum) (toks : Toks) le2 (r : Toks),
    parse_enum_value le toks = .ok (le2, r) → r.length < toks.length := by
  intro le toks le2 r h
  cases toks with
  | nil => simp [parse_enum_value] at h
  | cons name rest =>
    cases rest with
    | nil => simp [parse_enum_value] at h
    | cons s rest2 =>
      simp only [parse_enum_value] at h
      split at h
      · split at h
        · cases h
        · rename_i lit rest3
          have := enum_dup_check_rest _ _ _ _ _ _ h
          subst this
          simp
          omega
      · have := enum_dup_check_rest _ _ _ _ _ _ h
        subst this
        simp

/-- The enum-body loop of `parse_enum` (lcmgen.c lines 481-486): until the
closing `}`, parse one value, then optionally consume a comma and then
optionally a semicolon (each via `parse_try_consume`, whose peek makes an
exhausted stream fatal).  The fuel bounds the iteration count and is never
hit when supplied by the `parse_enum_values` wrapper. -/
def parse_enum_values_f (fuel : Nat) (le : lcm_enum) (toks : Toks) :
    Except diag (lcm_enum × Toks) :=
  match fuel with
  | 0 => .error (.parse_err "fuel exhausted")
  | fuel + 1 =>
    match toks with
    | [] => .error (.parse_err "End of file while looking for \x7d.")
    | s :: rest =>
      if s = "\x7d" then .ok (le, rest)
      else
        match parse_enum_value le (s :: rest) with
        | .error e => .error e
        | .ok (le2, rest2) =>
          match rest2 with
          | [] => .error (.parse_err "End of file while looking for ,.")
          | s2 :: rest3 =>
            if s2 = "," then
              match rest3 with
              | [] => .error (.parse_err "End of file while looking for ;.")
              | s3 :: rest4 =>
                if s3 = ";" then parse_enum_values_f fuel le2 rest4
                else parse_enum_values_f fuel le2 (s3 :: rest4)
            else if s2 = ";" then parse_enum_values_f fuel le2 rest3
            else parse_enum_values_f fuel le2 (s2 :: rest3)

/-- The enum-body loop with enough fuel for its token stream. -/
def parse_enum_values (le : lcm_enum) (toks : Toks) :
    Except diag (lcm_enum × Toks) :=
  parse_enum_values_f (toks.length + 1) le toks

/-- The enum-body loop never produces more tokens than it was given. -/
def parse_enum_values_f_len : ∀ (fuel : Nat) (le : lcm_enum) (toks : Toks)
    le2 (r : Toks), parse_enum_values_f fuel le toks = .ok (le2, r) →
    r.length ≤ toks.length := by
  intro fuel
  induction fuel with
  | zero => intro le toks le2 r h; simp [parse_enum_values_f] at h
  | succ fuel ih =>
    intro le toks le2 r h
    cases toks with
    | nil => simp [parse_enum_values_f] at h
    | cons s rest =>
      rw [parse_enum_values_f] at h
      split at h
      · cases h
        simp
      · split at h
        · cases h
        · rename_i le3 rest2 hval
          have h1 := parse_enum_value_len le (s :: rest) le3 rest2 hval
          split at h
          · cases h
          · rename_i s2 rest3
            split at h
            · split at h
              · cases h
              · rename_i s3 rest4
                split at h
                · have h2 := ih _ _ _ _ h
                  simp at h1 ⊢
                  omega
                · have h2 := ih _ _ _ _ h
                  simp at h1 h2 ⊢
                  omega
            · split at h
              · have h2 := ih _ _ _ _ h
                simp at h1 h2 ⊢
                omega
              · have h2 := ih _ _ _ _ h
                simp at h1 h2 ⊢
                omega

/-- The enum-body loop never produces more tokens than it was given. -/
def parse_enum_values_len : ∀ (le : lcm_enum) (toks : Toks) le2 (r : Toks),
    parse_enum_values le toks = .ok (le2, r) → r.length ≤ toks.length :=
  fun le toks le2 r h => parse_enum_values_f_len _ _ _ _ _ h

/-- Embedding of `parse_enum` (lcmgen.c line 471), the `enum` keyword
already consumed: read the enum name, require `{`, parse values until `}`,
then compute and store the hash (line 488). -/
def parse_enum (toks : Toks) : Except diag (lcm_enum × Toks) :=
  match toks with
  | [] => .error (.parse_err "End of file reached, expected enum name.")
  | name :: rest =>
    match parse_require rest "\x7b" with
    | .error e => .error e
    | .ok rest2 =>
      match parse_enum_values ⟨name, [], 0⟩ rest2 with
      | .error e => .error e
      | .ok (le, rest3) => .ok ({ le with hash := lcm_enum_hash le }, rest3)

/-- On success `parse_enum` consumes at least the enum name. -/
def parse_enum_len : ∀ (toks : Toks) le (r : Toks),
    parse_enum toks = .ok (le, r) → r.length < toks.length := by
  intro toks le r h
  cases toks with
  | nil => simp [parse_enum] at h
  | cons name rest =>
    rw [parse_enum] at h
    split at h
    · cases h
    · rename_i rest2 hreq
      split at h
      · cases h
      · rename_i le2 rest3 hbody
        cases h
        have h1 := parse_require_len _ _ _ hreq
        have h2 := parse_enum_values_len _ _ _ _ hbody
        simp
        omega

/-! ## Top-level dispatch and the file loop (lcmgen.c lines 493-550) -/

/-- Embedding of `parse_entity` (lcmgen.c line 494): read one token.  EOF
is a normal end of input (`.ok none`).  `struct` and `enum` dispatch to
their parsers and append the completed entity to the registry; `union` is
fatal (`parse_error` at line 515); any other token is also fatal: the
`parse_error(t, "Missing struct/enum/union token.")` at line 520. -/
def parse_entity (g : lcmgen) (toks : Toks) :
    Except diag (Option (lcmgen × Toks)) :=
  match toks with
  | [] => .ok none
  | s :: rest =>
    if s = "struct" then
      match parse_struct rest with
      | .error e => .error e
      | .ok (lr, rest2) => .ok (some ({ g with structs := g.structs ++ [lr] }, rest2))
    else if s = "enum" then
      match parse_enum rest with
      | .error e => .error e
      | .ok (le, rest2) => .ok (some ({ g with enums := g.enums ++ [le] }, rest2))
    else if s = "union" then
      .error (.parse_err "unions not implemented\n")
    else
      .error (.parse_err "Missing struct/enum/union token.")

/-- A successful non-EOF `parse_entity` consumes at least one token. -/
def parse_entity_len : ∀ (g : lcmgen) (toks : Toks) g2 (r : Toks),
    parse_entity g toks = .ok (some (g2, r)) → r.length < toks.length := by
  intro g toks g2 r h
  cases toks with
  | nil => simp [parse_entity] at h
  | cons s rest =>
    rw [parse_entity] at h
    split at h
    · split at h
      · cases h
      · rename_i lr rest2 hs
        cases h
        have := parse_struct_len _ _ _ hs
        simp
        omega
    · split at h
      · split at h
        · cases h
        · rename_i le rest2 he
          cases h
          have := parse_enum_len _ _ _ he
          simp
          omega
      · split at h
        · cases h
        · cases h

/-- Embedding of the entity loop of `lcmgen_handle_file` (lcmgen.c lines
543-546): `do res = parse_entity(...) while (res != EOF)`.  A fatal
diagnostic terminates the process with the Schema Registry in whatever
state it had reached; the error value records that registry alongside the
diagnostic.  The fuel bounds the iteration count and is never hit when
supplied by the `lcmgen_handle_file` wrapper. -/
def lcmgen_handle_file_f (fuel : Nat) (g : lcmgen) (toks : Toks) :
    Except (diag × lcmgen) lcmgen :=
  match fuel with
  | 0 => .error (.parse_err "fuel exhausted", g)
  | fuel + 1 =>
    match parse_entity g toks with
    | .error e => .error (e, g)
    | .ok none => .ok g
    | .ok (some (g2, toks2)) => lcmgen_handle_file_f fuel g2 toks2

/-- The entity loop with enough fuel for its token stream. -/
def lcmgen_handle_file (g : lcmgen) (toks : Toks) :
    Except (diag × lcmgen) lcmgen :=
  lcmgen_handle_file_f (toks.length + 1) g toks

/-! ## Spec-side definitions

The following definitions are written from the specification's words, not
from the C code; the theorems below compare them with the embedded code. -/

/-- One update fed to the rolling hash: a single character or a string. -/
inductive upd where
  | uchr : Int → upd
  | ustr : String → upd
  deriving DecidableEq

/-- Apply one update to a hash state. -/
def apply_upd (v : Int) : upd → Int
  | .uchr c => hash_update v c
  | .ustr s => hash_string_update v s

/-- Run a sequence of updates left to right. -/
def run_upds (v : Int) (us : List upd) : Int := us.foldl apply_upd v

/-- Spec wording for one dimension list: for each dimension in order, its
mode ordinal as a character update followed by its size token as a string
update. -/
def spec_dims_upds : List lcm_dimension → List upd
  | [] => []
  | d :: ds => .uchr d.mode.val :: .ustr d.size :: spec_dims_upds ds

/-- Spec wording for one member: the member name; the type name if and
only if it is a built-in primitive type; the number of dimensions as a
single character; then the dimensions. -/
def spec_member_upds (lm : lcm_member) : List upd :=
  .ustr lm.membername ::
    ((if lcm_is_primitive_type lm.type then [upd.ustr lm.type] else []) ++
      (upd.uchr (Int.ofNat lm.dimensions.length) :: spec_dims_upds lm.dimensions))

/-- Spec wording for a whole member list, in declaration order. -/
def spec_struct_upds : List lcm_member → List upd
  | [] => []
  | lm :: ms => spec_member_upds lm ++ spec_struct_upds ms

/-- The struct hash as the claim describes it: the rolling hash starting at
seed `0x12345678` fed with the members' update sequence.  The struct's own
name does not appear. -/
def spec_struct_hash (members : List lcm_member) : Int :=
  run_upds 0x12345678 (spec_struct_upds members)

/-- The character update exactly as the claim words it, with `>>>` read as
an unsigned (logical) right shift of the 64-bit bit pattern: the low 9 bits
of the shift result are the top 9 bits of `v` and all higher bits are
zero. -/
def spec_char_update_logical (v c : Int) : Int :=
  trunc64 (xor64 (trunc64 (v * 2^8)) (Int.ofNat (u64 v >>> 55)) + trunc8 c)

/-- The unsigned-pattern form of an arithmetic right shift by 55: the top
nine bits move to the bottom and the sign bit fills bits 9 and above. -/
def asr_u64 (w : Nat) : Nat :=
  w / 2^55 + (if w < 2^63 then 0 else 2^64 - 2^9)

/-- The auto-assigned enum value as the claim words it: one more than the
maximum value among all enum values parsed so far, the maximum taken as 0
when no values have been parsed yet. -/
def spec_enum_auto_value (vs : List lcm_enum_value) : Int :=
  (match vs with
   | [] => 0
   | v :: rest => rest.foldl (fun m w => max m w.value) v.value) + 1

/-- The auto-assigned enum value as the code computes it, phrased with
`max`: one more than the maximum of 0 and all values parsed so far. -/
def spec_enum_auto_value_clamped (vs : List lcm_enum_value) : Int :=
  vs.foldl (fun m w => max m w.value) 0 + 1

/-- The claim's admissibility condition for a variable array dimension
token: a legal identifier naming a member declared strictly earlier in the
struct that has no dimensions and an integer type.  `earlier` is the list
of members declared before the member being parsed. -/
def spec_var_dim_ok (earlier : List lcm_member) (tok : String) : Bool :=
  lcm_is_legal_member_name tok &&
    (match earlier.find? (fun m => m.membername == tok) with
     | some m => m.dimensions.isEmpty && lcm_is_array_dimension_type m.type
     | none => false)

/-- Zero or more successful `parse_entity` steps: the registry and token
stream reachable from a starting state by completing whole entities. -/
inductive entity_steps : lcmgen → Toks → lcmgen → Toks → Prop where
  | refl (g : lcmgen) (toks : Toks) : entity_steps g toks g toks
  | step {g : lcmgen} {toks : Toks} {g2 : lcmgen} {toks2 : Toks} {g3 : lcmgen}
      {toks3 : Toks} :
      parse_entity g toks = .ok (some (g2, toks2)) →
      entity_steps g2 toks2 g3 toks3 → entity_steps g toks g3 toks3

-- Equality of `Except` values is decidable when both components are;
-- needed to state concrete parser runs by `decide`.
deriving instance DecidableEq for Except

/-! ## Helper lemmas -/

theorem trunc64_range (x : Int) : -(2^63) ≤ trunc64 x ∧ trunc64 x < 2^63 := by
  unfold trunc64
  omega

theorem u64_trunc64 (x : Int) : u64 (trunc64 x) = u64 x := by
  unfold u64 trunc64
  omega

theorem u64_lt (x : Int) : u64 x < 2^64 := by
  unfold u64
  omega

theorem u64_add (a b : Int) : u64 (a + b) = (u64 a + u64 b) % 2^64 := by
  unfold u64
  omega

theorem u64_ofNat (k : Nat) : u64 (Int.ofNat k) = k % 2^64 := by
  unfold u64
  norm_cast

theorem u64_inj (x y : Int) (hx1 : -(2^63) ≤ x) (hx2 : x < 2^63)
    (hy1 : -(2^63) ≤ y) (hy2 : y < 2^63) (h : u64 x = u64 y) : x = y := by
  unfold u64 at h
  omega

theorem trunc8_eq (c : Int) (h1 : -128 ≤ c) (h2 : c < 128) : trunc8 c = c := by
  unfold trunc8
  omega

theorem u64_xor64 (a b : Int) : u64 (xor64 a b) = u64 a ^^^ u64 b := by
  unfold xor64
  rw [u64_trunc64, u64_ofNat]
  exact Nat.mod_eq_of_lt (Nat.xor_lt_two_pow (u64_lt a) (u64_lt b))

theorem u64_shl8 (v : Int) : u64 (trunc64 (v * 2^8)) = (u64 v * 2^8) % 2^64 := by
  rw [u64_trunc64]
  unfold u64
  omega

theorem u64_asr55 (v : Int) (h1 : -(2^63) ≤ v) (h2 : v < 2^63) :
    u64 (v / 2^55) = asr_u64 (u64 v) := by
  unfold u64 asr_u64
  split
  · omega
  · omega

theorem hash_update_range (v c : Int) :
    -(2^63) ≤ hash_update v c ∧ hash_update v c < 2^63 := by
  unfold hash_update
  exact trunc64_range _

theorem hash_chars_range : ∀ (cs : List Char) (v : Int),
    (-(2^63) ≤ v ∧ v < 2^63) →
    (-(2^63) ≤ cs.foldl (fun w ch => hash_update w (Int.ofNat ch.toNat)) v ∧
      cs.foldl (fun w ch => hash_update w (Int.ofNat ch.toNat)) v < 2^63) := by
  intro cs
  induction cs with
  | nil =>
    intro v hv
    simpa using hv
  | cons ch rest ih =>
    intro v hv
    rw [List.foldl_cons]
    exact ih _ (hash_update_range _ _)

theorem hash_string_update_range (v : Int) (s : String) :
    -(2^63) ≤ hash_string_update v s ∧ hash_string_update v s < 2^63 := by
  unfold hash_string_update
  exact hash_chars_range _ _ (hash_update_range _ _)

theorem hash_string_update_eq_foldl (v : Int) (s : String) :
    hash_string_update v s =
      (s.toList.map (fun ch => Int.ofNat ch.toNat)).foldl hash_update
        (hash_update v (Int.ofNat s.length)) := by
  unfold hash_string_update
  rw [List.foldl_map]

theorem run_upds_append (v : Int) (us ws : List upd) :
    run_upds v (us ++ ws) = run_upds (run_upds v us) ws := by
  unfold run_upds
  rw [List.foldl_append]

theorem dims_foldl_eq_spec (ds : List lcm_dimension) (v : Int) :
    ds.foldl
      (fun w dim => hash_string_update (hash_update w dim.mode.val) dim.size) v
      = run_upds v (spec_dims_upds ds) := by
  induction ds generalizing v with
  | nil => simp only [List.foldl_nil, spec_dims_upds, run_upds]
  | cons d rest ih =>
    rw [List.foldl_cons, spec_dims_upds, ih]
    simp only [run_upds, List.foldl_cons, apply_upd]

theorem member_step_eq (v : Int) (lm : lcm_member) :
    lm.dimensions.foldl
      (fun w dim => hash_string_update (hash_update w dim.mode.val) dim.size)
      (hash_update
        (if lcm_is_primitive_type lm.type
         then hash_string_update (hash_string_update v lm.membername) lm.type
         else hash_string_update v lm.membername)
        (Int.ofNat lm.dimensions.length))
    = run_upds v (spec_member_upds lm) := by
  rw [dims_foldl_eq_spec, spec_member_upds]
  by_cases hprim : lcm_is_primitive_type lm.type
  · simp [hprim, run_upds, apply_upd, List.foldl_append]
  · simp [hprim, run_upds, apply_upd]

theorem lcm_struct_hash_eq_spec (lr : lcm_struct) :
    lcm_struct_hash lr = spec_struct_hash lr.members := by
  unfold lcm_struct_hash spec_struct_hash
  generalize (0x12345678 : Int) = v
  induction lr.members generalizing v with
  | nil => simp only [List.foldl_nil, spec_struct_upds, run_upds]
  | cons lm rest ih =>
    rw [spec_struct_upds, run_upds_append, ← ih]
    simp only [List.foldl_cons]
    congr 1
    rw [← member_step_eq]

theorem enum_next_value_eq_clamped (le : lcm_enum) :
    enum_next_value le = spec_enum_auto_value_clamped le.values := by
  unfold enum_next_value spec_enum_auto_value_clamped
  congr 1
  generalize (0 : Int) = m
  induction le.values generalizing m with
  | nil => rfl
  | cons w rest ih =>
    rw [List.foldl_cons, List.foldl_cons, ih]
    congr 1
    rcases lt_or_le m w.value with hlt | hle
    · rw [if_pos hlt, max_eq_right hlt.le]
    · rw [if_neg (not_lt.mpr hle), max_eq_left hle]

theorem hash_update_unsigned_core (v c : Int)
    (hv1 : -(2^63) ≤ v) (hv2 : v < 2^63) (hc1 : -128 ≤ c) (hc2 : c < 128) :
    u64 (hash_update v c) =
      ((((u64 v * 2^8) % 2^64) ^^^ asr_u64 (u64 v)) + u64 c) % 2^64 := by
  unfold hash_update
  rw [u64_trunc64, trunc8_eq c hc1 hc2, u64_add, u64_xor64, u64_shl8,
    u64_asr55 v hv1 hv2]

theorem handle_f_error : ∀ (fuel : Nat) (g : lcmgen) (toks : Toks) (d : diag)
    (gexit : lcmgen), toks.length < fuel →
    lcmgen_handle_file_f fuel g toks = .error (d, gexit) →
    ∃ toks2, entity_steps g toks gexit toks2 ∧
      parse_entity gexit toks2 = .error d := by
  intro fuel
  induction fuel with
  | zero =>
    intro g toks d gexit hlen h
    omega
  | succ fuel ih =>
    intro g toks d gexit hlen h
    rw [lcmgen_handle_file_f] at h
    cases hpe : parse_entity g toks with
    | error e =>
      rw [hpe] at h
      cases h
      exact ⟨toks, entity_steps.refl g toks, hpe⟩
    | ok o =>
      cases o with
      | none => rw [hpe] at h; cases h
      | some p =>
        obtain ⟨g2, toks2⟩ := p
        rw [hpe] at h
        have hlen2 := parse_entity_len g toks g2 toks2 hpe
        obtain ⟨toks3, hsteps, herr⟩ := ih g2 toks2 d gexit (by omega) h
        exact ⟨toks3, entity_steps.step hpe hsteps, herr⟩

theorem spec_struct_upds_append (as bs : List lcm_member) :
    spec_struct_upds (as ++ bs) = spec_struct_upds as ++ spec_struct_upds bs := by
  induction as with
  | nil => simp [spec_struct_upds]
  | cons a rest ih => rw [List.cons_append, spec_struct_upds, spec_struct_upds, ih, List.append_assoc]

/-! ## Claim theorems -/

/-- C1: for every completed struct (every struct returned by `parse_struct`,
whose hash is stored when the closing brace is consumed), the stored hash
equals the rolling hash that starts at seed 0x12345678 and feeds, for each
member in declaration order: the member name as a string update; the type
name as a string update if and only if that type is a built-in primitive
type; the number of dimensions as a single character update; and for each
dimension in order its mode ordinal (Constant = 0, Variable = 1) as a
character update followed by its size token as a string update.  The
struct's own name is never fed: `spec_struct_hash` does not take it. -/
theorem struct_hash_matches_spec :
    ∀ (toks : Toks) (lr : lcm_struct) (rest : Toks),
      parse_struct toks = .ok (lr, rest) → lr.hash = spec_struct_hash lr.members := by
  intro toks lr rest h
  cases toks with
  | nil => simp [parse_struct] at h
  | cons name rest2 =>
    rw [parse_struct] at h
    split at h
    · cases h
    · split at h
      · cases h
      · rename_i lr2 rest3 hbody
        cases h
        simpa using lcm_struct_hash_eq_spec lr2

/-- Witness for C1 at the struct `a \x7b int8_t x; \x7d`. -/
theorem struct_hash_matches_spec_witness :
    (⟨"a", [⟨"int8_t", "x", []⟩], 462061914219837168⟩ : lcm_struct).hash =
      spec_struct_hash [⟨"int8_t", "x", []⟩] :=
  struct_hash_matches_spec ["a", "\x7b", "int8_t", "x", ";", "\x7d"]
    ⟨"a", [⟨"int8_t", "x", []⟩], 462061914219837168⟩ [] (by decide)

/-- C2 (amended): the character update is
`v = ((v << 8) xor (v >>> 55)) + c` where `>>>` is an arithmetic
(sign-propagating) right shift — not a logical one — and all arithmetic
wraps modulo 2^64: on the unsigned bit pattern, the update is
`(((w * 2^8) mod 2^64) xor asr_u64 w) + c mod 2^64`.  A string update
feeds the byte length and then every byte in order. -/
theorem char_update_arithmetic :
    ∀ (v c : Int), -(2^63) ≤ v → v < 2^63 → -128 ≤ c → c < 128 →
      (u64 (hash_update v c) =
        ((((u64 v * 2^8) % 2^64) ^^^ asr_u64 (u64 v)) + u64 c) % 2^64) ∧
      ∀ s : String, hash_string_update v s =
        (s.toList.map (fun ch => Int.ofNat ch.toNat)).foldl hash_update
          (hash_update v (Int.ofNat s.length)) :=
  fun v c h1 h2 h3 h4 =>
    ⟨hash_update_unsigned_core v c h1 h2 h3 h4,
     fun s => hash_string_update_eq_foldl v s⟩

/-- Witness for C2 at `v = 3`, `c = 5`. -/
theorem char_update_arithmetic_witness :
    (u64 (hash_update 3 5) =
      ((((u64 3 * 2^8) % 2^64) ^^^ asr_u64 (u64 3)) + u64 5) % 2^64) ∧
    ∀ s : String, hash_string_update 3 s =
      (s.toList.map (fun ch => Int.ofNat ch.toNat)).foldl hash_update
        (hash_update 3 (Int.ofNat s.length)) :=
  char_update_arithmetic 3 5 (by decide) (by decide) (by decide) (by decide)

/-- Counterexample for C2 as stated: at the hash state reached by feeding
the ordinary identifier "abcdefghijk" from the struct seed (a negative
signed value), the code's arithmetic-shift update differs from the
logical-shift update the claim describes. -/
theorem char_update_logical_shift_refuted :
    hash_update (hash_string_update 0x12345678 "abcdefghijk") 97 ≠
      spec_char_update_logical (hash_string_update 0x12345678 "abcdefghijk") 97 := by
  decide

/-- C3 (amended): every completed enum stores the rolling hash seeded with
0x87654321 and string-updated with only its qualified name, so any two
enums with the same qualified name — whatever their values — have equal
hashes, and enums with different names generally differ (e.g. Color vs
Colour); but since the hash has only 2^64 possible values, distinct names
are not guaranteed distinct hashes. -/
theorem enum_hash_depends_only_on_name :
    (∀ (toks : Toks) (le : lcm_enum) (rest : Toks),
      parse_enum toks = .ok (le, rest) → le.hash = lcm_enum_hash le) ∧
    (∀ e1 e2 : lcm_enum, e1.enumname = e2.enumname →
      lcm_enum_hash e1 = lcm_enum_hash e2) ∧
    lcm_enum_hash ⟨"Color", [], 0⟩ ≠ lcm_enum_hash ⟨"Colour", [], 0⟩ := by
  refine ⟨?stored, ?nameonly, by decide⟩
  case stored =>
    intro toks le rest h
    cases toks with
    | nil => simp [parse_enum] at h
    | cons name rest2 =>
      rw [parse_enum] at h
      split at h
      · cases h
      · split at h
        · cases h
        · rename_i le2 rest3 hbody
          cases h
          simp [lcm_enum_hash]
  case nameonly =>
    intro e1 e2 h
    unfold lcm_enum_hash
    rw [h]

/-- Witness for C3: the parsed enum `Color \x7b RED \x7d` stores its name
hash, and an enum of the same name with different values hashes equal. -/
theorem enum_hash_depends_only_on_name_witness :
    (⟨"Color", [⟨"RED", 1⟩], 4837153261963018919⟩ : lcm_enum).hash =
      lcm_enum_hash ⟨"Color", [⟨"RED", 1⟩], 4837153261963018919⟩ ∧
    lcm_enum_hash ⟨"Color", [], 0⟩ = lcm_enum_hash ⟨"Color", [⟨"X", 5⟩], 7⟩ :=
  ⟨enum_hash_depends_only_on_name.1 ["Color", "\x7b", "RED", "\x7d"]
      ⟨"Color", [⟨"RED", 1⟩], 4837153261963018919⟩ [] (by decide),
   enum_hash_depends_only_on_name.2.1 _ _ rfl⟩

/-- Counterexample for C3 as stated: the claim's final clause — that
changing the qualified name always changes the hash — cannot hold, because
there are infinitely many names and only finitely many 64-bit hash values;
by pigeonhole two distinct names collide. -/
theorem enum_hash_injectivity_refuted :
    ¬ ((∀ e1 e2 : lcm_enum, e1.enumname = e2.enumname →
          lcm_enum_hash e1 = lcm_enum_hash e2) ∧
       (∀ e1 e2 : lcm_enum, e1.enumname ≠ e2.enumname →
          lcm_enum_hash e1 ≠ lcm_enum_hash e2)) := by
  rintro ⟨-, hinj⟩
  have hnameinj : Function.Injective
      (fun n : Nat => String.mk (List.replicate n 'a')) := by
    intro m n h
    have := congrArg (fun s => s.data.length) h
    simpa using this
  obtain ⟨m, n, hmn, hf⟩ := Finite.exists_ne_map_eq_of_infinite
    (fun n : Nat =>
      (⟨u64 (lcm_enum_hash ⟨String.mk (List.replicate n 'a'), [], 0⟩),
        u64_lt _⟩ : Fin (2^64)))
  have hname : String.mk (List.replicate m 'a') ≠ String.mk (List.replicate n 'a') :=
    fun h => hmn (hnameinj h)
  have hr1 := hash_string_update_range 0x87654321 (String.mk (List.replicate m 'a'))
  have hr2 := hash_string_update_range 0x87654321 (String.mk (List.replicate n 'a'))
  have hu : u64 (lcm_enum_hash ⟨String.mk (List.replicate m 'a'), [], 0⟩) =
      u64 (lcm_enum_hash ⟨String.mk (List.replicate n 'a'), [], 0⟩) :=
    congrArg Fin.val hf
  exact hinj ⟨String.mk (List.replicate m 'a'), [], 0⟩
    ⟨String.mk (List.replicate n 'a'), [], 0⟩ hname
    (u64_inj _ _ hr1.1 hr1.2 hr2.1 hr2.2 hu)

/-- C4 (amended): the struct hash always feeds the member name — only the
member's TYPE name is conditionally excluded.  Changing the type name of a
member whose type is compound (non-primitive) to another compound name
leaves the struct hash unchanged; by contrast renaming a member (compound
or primitive type alike) changes the hash in the concrete cases below, as
does respelling a primitive type. -/
theorem member_type_name_excluded_compound :
    (∀ (n : String) (h0 : Int) (pre post : List lcm_member) (lm : lcm_member)
      (t2 : String),
      lcm_is_primitive_type lm.type = false → lcm_is_primitive_type t2 = false →
      lcm_struct_hash ⟨n, pre ++ lm :: post, h0⟩ =
        lcm_struct_hash ⟨n, pre ++ { lm with type := t2 } :: post, h0⟩) ∧
    lcm_struct_hash ⟨"s", [⟨"foo", "a", []⟩], 0⟩ ≠
      lcm_struct_hash ⟨"s", [⟨"foo", "b", []⟩], 0⟩ ∧
    lcm_struct_hash ⟨"s", [⟨"int32_t", "a", []⟩], 0⟩ ≠
      lcm_struct_hash ⟨"s", [⟨"int32_t", "b", []⟩], 0⟩ ∧
    lcm_struct_hash ⟨"s", [⟨"int32_t", "a", []⟩], 0⟩ ≠
      lcm_struct_hash ⟨"s", [⟨"int64_t", "a", []⟩], 0⟩ := by
  refine ⟨?invariance, by decide, by decide, by decide⟩
  case invariance =>
    intro n h0 pre post lm t2 h1 h2
    rw [lcm_struct_hash_eq_spec, lcm_struct_hash_eq_spec]
    show spec_struct_hash (pre ++ lm :: post) =
      spec_struct_hash (pre ++ { lm with type := t2 } :: post)
    unfold spec_struct_hash
    rw [show lm :: post = [lm] ++ post from rfl,
      show ({ lm with type := t2 } :: post) = [{ lm with type := t2 }] ++ post from rfl,
      spec_struct_upds_append, spec_struct_upds_append,
      spec_struct_upds_append, spec_struct_upds_append]
    have hm : spec_member_upds lm = spec_member_upds { lm with type := t2 } := by
      simp [spec_member_upds, h1, h2]
    rw [show spec_struct_upds [lm] = spec_member_upds lm ++ spec_struct_upds [] from rfl,
      show spec_struct_upds [{ lm with type := t2 }] =
        spec_member_upds { lm with type := t2 } ++ spec_struct_upds [] from rfl,
      hm]

/-- Witness for C4: retyping the compound member `foo a` to the compound
type `bar` leaves the hash unchanged. -/
theorem member_type_name_excluded_compound_witness :
    lcm_struct_hash ⟨"s", [⟨"foo", "a", []⟩], 0⟩ =
      lcm_struct_hash ⟨"s", [⟨"bar", "a", []⟩], 0⟩ :=
  member_type_name_excluded_compound.1 "s" 0 [] [] ⟨"foo", "a", []⟩ "bar"
    (by decide) (by decide)

/-- Counterexample for C4 as stated: `foo` is not a primitive type, and
renaming the member `a` of type `foo` to `b` does change the struct hash —
the member name is always fed to the hash (lcmgen.c line 182). -/
theorem compound_member_rename_changes_hash :
    lcm_is_primitive_type "foo" = false ∧
    lcm_struct_hash ⟨"s", [⟨"foo", "a", []⟩], 0⟩ ≠
      lcm_struct_hash ⟨"s", [⟨"foo", "b", []⟩], 0⟩ := by
  exact ⟨by decide, by decide⟩

/-- C5 (amended): an enum value declared without an explicit literal is
assigned one more than the maximum of 0 and all values parsed so far in
the enum (the code's running maximum starts at 0) — which for enums whose
prior values are all non-negative, such as the Color scenario, coincides
with one more than the maximum parsed value. -/
theorem enum_auto_value_clamped_max :
    (∀ (le : lcm_enum) (name s : String) (rest2 : Toks) (le2 : lcm_enum)
      (r : Toks), s ≠ "=" →
      parse_enum_value le (name :: s :: rest2) = .ok (le2, r) →
      le2.values = le.values ++
        [⟨name, trunc32 (spec_enum_auto_value_clamped le.values)⟩] ∧
      r = s :: rest2) ∧
    (parse_enum ["Color", "\x7b", "RED", ",", "GREEN", "=", "5", ",", "BLUE",
        "\x7d"]).map (fun p => p.1.values) =
      .ok [⟨"RED", 1⟩, ⟨"GREEN", 5⟩, ⟨"BLUE", 6⟩] := by
  refine ⟨?main, by decide⟩
  case main =>
    intro le name s rest2 le2 r hs h
    simp only [parse_enum_value] at h
    rw [if_neg hs] at h
    rw [enum_dup_check] at h
    split at h
    · split at h
      · cases h
      · cases h
    · cases h
      rw [← enum_next_value_eq_clamped]
      exact ⟨rfl, rfl⟩

/-- Witness for C5: the first value of a fresh enum is auto-assigned
`trunc32 (spec_enum_auto_value_clamped []) = 1`. -/
theorem enum_auto_value_clamped_max_witness :
    (⟨"E", [⟨"X", 1⟩], 0⟩ : lcm_enum).values =
      ([] : List lcm_enum_value) ++
        [⟨"X", trunc32 (spec_enum_auto_value_clamped [])⟩] ∧
    (["\x7d"] : Toks) = "\x7d" :: ([] : Toks) :=
  enum_auto_value_clamped_max.1 ⟨"E", [], 0⟩ "X" "\x7d" []
    ⟨"E", [⟨"X", 1⟩], 0⟩ ["\x7d"] (by decide) (by decide)

/-- Counterexample for C5 as stated: in `enum E \x7b A = -5, B \x7d` the
code assigns B the value 1 (the running maximum is clamped at 0), not one
more than the maximum parsed value, which would be -4. -/
theorem enum_auto_value_negative_refuted :
    (parse_enum ["E", "\x7b", "A", "=", "-5", ",", "B", "\x7d"]).map
        (fun p => p.1.values) = .ok [⟨"A", -5⟩, ⟨"B", 1⟩] ∧
    spec_enum_auto_value [⟨"A", -5⟩] = -4 ∧ (1 : Int) ≠ -4 := by
  exact ⟨by decide, by decide, by decide⟩

/-- C6 (amended): in the top-level entity loop, absence of any token (end
of input) ends the file normally; `union` always fails with the fatal
"unions not implemented" diagnostic; and a token that is none of `struct`,
`enum`, `union` is also a fatal parse error ("Missing struct/enum/union
token."), not a normal termination. -/
theorem entity_dispatch_behaviour :
    (∀ g : lcmgen, parse_entity g [] = .ok none) ∧
    (∀ (g : lcmgen) (rest : Toks),
      parse_entity g ("union" :: rest) =
        .error (.parse_err "unions not implemented\n")) ∧
    (∀ (g : lcmgen) (tok : String) (rest : Toks),
      tok ≠ "struct" → tok ≠ "enum" → tok ≠ "union" →
      parse_entity g (tok :: rest) =
        .error (.parse_err "Missing struct/enum/union token.")) := by
  refine ⟨fun g => rfl, ?union, ?other⟩
  case union =>
    intro g rest
    rw [parse_entity]
    rw [if_neg (by decide), if_neg (by decide), if_pos rfl]
  case other =>
    intro g tok rest h1 h2 h3
    rw [parse_entity]
    rw [if_neg h1, if_neg h2, if_neg h3]

/-- Witness for C6: the stray token `bar` is fatal. -/
theorem entity_dispatch_behaviour_witness :
    parse_entity ⟨[], []⟩ ["bar"] =
      .error (.parse_err "Missing struct/enum/union token.") :=
  entity_dispatch_behaviour.2.2 ⟨[], []⟩ "bar" [] (by decide) (by decide)
    (by decide)

/-- Counterexample for C6 as stated: the token `foo` — none of `struct`,
`enum`, `union` — does not end the file normally; it raises the fatal
parse error at lcmgen.c line 520. -/
theorem unknown_token_is_fatal :
    parse_entity ⟨[], []⟩ ["foo"] =
      .error (.parse_err "Missing struct/enum/union token.") := by
  decide

/-- C7 (amended): a non-numeric array-size token parses successfully if
and only if it is a legal identifier naming a member already in the
struct's member list — which at that moment holds the members declared
earlier plus the member currently being declared (so a self-reference such
as `int32_t x[x]` is accepted) — with zero dimensions attached so far and
one of the four signed integer types; any violation is a fatal semantic
error, and on success the dimension has mode Variable with the token as
its size. -/
theorem variable_dimension_rules :
    (∀ (members : List lcm_member) (tok : String) (rest : Toks),
      ¬ (firstChar tok).isDigit →
      (((∃ d r, parse_one_dim members (tok :: "]" :: rest) = .ok (d, r)) ↔
        (lcm_is_legal_member_name tok = true ∧
         ∃ lm, members.find? (fun m => m.membername == tok) = some lm ∧
           lm.dimensions = [] ∧ lcm_is_array_dimension_type lm.type = true)) ∧
       ∀ d r, parse_one_dim members (tok :: "]" :: rest) = .ok (d, r) →
         d = ⟨.LCM_VAR, tok⟩ ∧ r = rest)) ∧
    (parse_struct ["a", "\x7b", "int32_t", "x", "[", "x", "]", ";",
        "\x7d"]).map (fun p => p.1.members) =
      .ok [⟨"int32_t", "x", [⟨.LCM_VAR, "x"⟩]⟩] := by
  refine ⟨?main, by decide⟩
  case main =>
    intro members tok rest hdig
    constructor
    · constructor
      · rintro ⟨d, r, hok⟩
        rw [parse_one_dim] at hok
        rw [if_neg hdig] at hok
        split at hok
        · cases hok
        · split at hok
          · cases hok
          · rename_i hbr hleg
            split at hok
            · cases hok
            · rename_i lm hfind
              split at hok
              · cases hok
              · split at hok
                · cases hok
                · rename_i hdims htype
                  refine ⟨by simpa using hleg, lm, hfind, ?_, by simpa using htype⟩
                  have : lm.dimensions.length = 0 := by omega
                  exact List.length_eq_zero.mp this
      · rintro ⟨hleg, lm, hfind, hdims, htype⟩
        refine ⟨⟨.LCM_VAR, tok⟩, rest, ?_⟩
        rw [parse_one_dim]
        rw [if_neg hdig]
        rw [if_neg ?hbr]
        rw [if_neg (by simpa using hleg)]
        rw [hfind]
        simp [hdims, htype, parse_require]
        case hbr =>
          intro hch
          rw [lcm_is_legal_member_name, hch] at hleg
          simp at hleg
    · intro d r hok
      rw [parse_one_dim] at hok
      rw [if_neg hdig] at hok
      split at hok
      · cases hok
      · split at hok
        · cases hok
        · split at hok
          · cases hok
          · rename_i lm hfind
            split at hok
            · cases hok
            · split at hok
              · cases hok
              · simp [parse_require] at hok
                exact ⟨hok.1.symm, hok.2.symm⟩

/-- Witness for C7: the token `n` names the earlier scalar `int32_t n`
member, so its dimension parse succeeds with a Variable dimension. -/
theorem variable_dimension_rules_witness :
    ((∃ d r, parse_one_dim [⟨"int32_t", "n", []⟩] ["n", "]"] = .ok (d, r)) ↔
      (lcm_is_legal_member_name "n" = true ∧
       ∃ lm, ([⟨"int32_t", "n", []⟩] : List lcm_member).find?
           (fun m => m.membername == "n") = some lm ∧
         lm.dimensions = [] ∧ lcm_is_array_dimension_type lm.type = true)) ∧
    ∀ d r, parse_one_dim [⟨"int32_t", "n", []⟩] ["n", "]"] = .ok (d, r) →
      d = ⟨.LCM_VAR, "n"⟩ ∧ r = [] :=
  variable_dimension_rules.1 [⟨"int32_t", "n", []⟩] "n" [] (by decide)

/-- Counterexample for C7 as stated: `struct a \x7b int32_t x[x]; \x7d`
parses successfully even though no member named `x` is declared earlier
in the struct (the earlier-member list is empty when the dimension is
parsed): the claim's iff demands this input be rejected. -/
theorem self_size_reference_accepted :
    (parse_struct ["a", "\x7b", "int32_t", "x", "[", "x", "]", ";",
        "\x7d"]).map (fun p => p.1.members) =
      .ok [⟨"int32_t", "x", [⟨.LCM_VAR, "x"⟩]⟩] ∧
    spec_var_dim_ok [] "x" = false := by
  exact ⟨by decide, by decide⟩

/-- C8 (amended): a numeric array-size token is parsed with strtol
(base 0) and the result is stored into a C `int`, wrapping it to 32 bits;
the dimension parse succeeds — with mode Constant and the literal text as
the size — if and only if that wrapped 32-bit value is strictly positive;
a non-positive value is the fatal semantic error "Constant array size
must be > 0".  In particular `struct b \x7b int32_t n[0]; \x7d` is
rejected with that error and leaves the registry empty, and so is
`int32_t n[2147483648];`, whose wrapped value is -2^31. -/
theorem constant_dimension_positive :
    (∀ (members : List lcm_member) (tok : String) (rest : Toks),
      (firstChar tok).isDigit →
      ((0 < trunc32 (strtol0 tok) →
        parse_one_dim members (tok :: "]" :: rest) =
          .ok (⟨.LCM_CONST, tok⟩, rest)) ∧
       (trunc32 (strtol0 tok) ≤ 0 →
        parse_one_dim members (tok :: "]" :: rest) =
          .error (.semantic_err "Constant array size must be > 0")))) ∧
    lcmgen_handle_file ⟨[], []⟩
        ["struct", "b", "\x7b", "int32_t", "n", "[", "0", "]", ";", "\x7d"] =
      .error (.semantic_err "Constant array size must be > 0", ⟨[], []⟩) ∧
    lcmgen_handle_file ⟨[], []⟩
        ["struct", "b", "\x7b", "int32_t", "n", "[", "2147483648", "]", ";",
          "\x7d"] =
      .error (.semantic_err "Constant array size must be > 0", ⟨[], []⟩) := by
  refine ⟨?main, by decide, by decide⟩
  case main =>
    intro members tok rest hdig
    constructor
    · intro hpos
      rw [parse_one_dim, if_pos hdig, if_neg (by omega)]
      simp [parse_require]
    · intro hnp
      rw [parse_one_dim, if_pos hdig, if_pos hnp]

/-- Witness for C8: the token `3` yields a Constant dimension of size
literal "3". -/
theorem constant_dimension_positive_witness :
    parse_one_dim [] ["3", "]"] = .ok (⟨.LCM_CONST, "3"⟩, []) :=
  (constant_dimension_positive.1 [] "3" [] (by decide)).1 (by decide)

/-- Counterexample for C8 as stated: the token `2147483648` denotes the
strictly positive integer 2^31, yet the dimension parse rejects it with
the "Constant array size must be > 0" error, because lcmgen.c line 362
stores the `long` result of strtol into an `int`, wrapping it to -2^31
before the `sz <= 0` check. -/
theorem constant_size_int_wrap_refuted :
    parse_one_dim [] ["2147483648", "]"] =
      .error (.semantic_err "Constant array size must be > 0") ∧
    0 < strtol0 "2147483648" := by
  exact ⟨by decide, by decide⟩

/-- C9: when the run ends with a fatal diagnostic, the Schema Registry at
exit is exactly the registry reached by some prefix of fully successful
entity parses — the failing entity contributed nothing — and every
successful entity step appends exactly one completed struct or one
completed enum to the registry. -/
theorem registry_unchanged_on_fatal :
    (∀ (g : lcmgen) (toks : Toks) (d : diag) (gexit : lcmgen),
      lcmgen_handle_file g toks = .error (d, gexit) →
      ∃ toks2, entity_steps g toks gexit toks2 ∧
        parse_entity gexit toks2 = .error d) ∧
    (∀ (g : lcmgen) (toks : Toks) (g2 : lcmgen) (toks2 : Toks),
      parse_entity g toks = .ok (some (g2, toks2)) →
      (∃ lr, g2 = { g with structs := g.structs ++ [lr] }) ∨
      (∃ le, g2 = { g with enums := g.enums ++ [le] })) := by
  refine ⟨?exitstate, ?onestep⟩
  case exitstate =>
    intro g toks d gexit h
    exact handle_f_error (toks.length + 1) g toks d gexit (by omega) h
  case onestep =>
    intro g toks g2 toks2 h
    cases toks with
    | nil => simp [parse_entity] at h
    | cons s rest =>
      rw [parse_entity] at h
      split at h
      · split at h
        · cases h
        · rename_i lr rest2 hs
          cases h
          exact Or.inl ⟨lr, rfl⟩
      · split at h
        · split at h
          · cases h
          · rename_i le rest2 he
            cases h
            exact Or.inr ⟨le, rfl⟩
        · split at h
          · cases h
          · cases h

/-- Witness for C9: a file whose first token is `union` fails fatally and
leaves the registry exactly as it started (empty). -/
theorem registry_unchanged_on_fatal_witness :
    ∃ toks2, entity_steps ⟨[], []⟩ ["union"] ⟨[], []⟩ toks2 ∧
      parse_entity ⟨[], []⟩ toks2 =
        .error (.parse_err "unions not implemented\n") :=
  registry_unchanged_on_fatal.1 ⟨[], []⟩ ["union"]
    (.parse_err "unions not implemented\n") ⟨[], []⟩ (by decide)

/-- C10: `parse_enum_value` accepts any non-EOF token as a value name with
no legality check — an enum value name beginning with a digit or
punctuation is accepted provided it collides with no prior name or number
— whereas the member-name path of `parse_member` rejects any name that
does not start with a letter or underscore. -/
theorem enum_value_name_not_validated :
    (∀ (le : lcm_enum) (name s : String) (rest2 : Toks), s ≠ "=" →
      le.values.find? (fun tmp => tmp.value == trunc32 (enum_next_value le)
        || tmp.valuename == name) = none →
      parse_enum_value le (name :: s :: rest2) =
        .ok ({ le with
          values := le.values ++ [⟨name, trunc32 (enum_next_value le)⟩] },
          s :: rest2)) ∧
    (∀ (lt : String) (lr : lcm_struct) (name : String) (rest : Toks),
      lcm_is_legal_member_name name = false →
      parse_one_member_item lt lr (name :: rest) =
        .error (.parse_err "Invalid member name: must start with [a-zA-Z_].")) := by
  refine ⟨?enumside, ?memberside⟩
  case enumside =>
    intro le name s rest2 hs hfind
    simp only [parse_enum_value]
    rw [if_neg hs, enum_dup_check, hfind]
  case memberside =>
    intro lt lr name rest hleg
    rw [parse_one_member_item]
    rw [if_pos (by simp [hleg])]

/-- Witness for C10: the digit-initial name `123abc` is accepted as an
enum value, while the digit-initial member name `9x` is rejected. -/
theorem enum_value_name_not_validated_witness :
    parse_enum_value ⟨"G", [], 0⟩ ["123abc", "\x7d"] =
      .ok (⟨"G", [⟨"123abc", 1⟩], 0⟩, ["\x7d"]) ∧
    parse_one_member_item "int32_t" ⟨"h", [], 0⟩ ["9x", ";"] =
      .error (.parse_err "Invalid member name: must start with [a-zA-Z_].") :=
  ⟨enum_value_name_not_validated.1 ⟨"G", [], 0⟩ "123abc" "\x7d" []
      (by decide) (by decide),
   enum_value_name_not_validated.2 "int32_t" ⟨"h", [], 0⟩ "9x" [";"]
      (by decide)⟩

end Lcmgen
